import Mathlib

/-!
Verification development for the uniprot-manual-link-checker tool
(`src/main.py`).  The Python source is shallowly embedded: Python strings
are modelled as `List Char`, the relevant pieces of `urllib.parse`,
`os.path` and the checker functions are translated into executable Lean
definitions, and the external collaborators (Selenium page renderer,
`requests` HTTP client, `ftplib` FTP client) are modelled as oracle
functions whose failures are `Except` errors (a Python exception).
-/

namespace LinkChecker

/-- Python `str` is modelled as a list of characters. -/
abbrev PyStr := List Char

/-- Does `n` occur at the start of `h`?  (Python `str.startswith`, used to
model the substring test below.) -/
def startsL : PyStr → PyStr → Bool
  | [], _ => true
  | _ :: _, [] => false
  | a :: as, b :: bs => a == b && startsL as bs

/-- Python `n in h` for strings: `n` occurs as a contiguous substring of
`h`. -/
def containsSub (n : PyStr) : PyStr → Bool
  | [] => startsL n []
  | c :: rest => startsL n (c :: rest) || containsSub n rest

/-- Value of a hexadecimal digit, if `c` is one. -/
def hexVal (c : Char) : Option Nat :=
  if '0' ≤ c ∧ c ≤ '9' then some (c.toNat - '0'.toNat)
  else if 'a' ≤ c ∧ c ≤ 'f' then some (c.toNat - 'a'.toNat + 10)
  else if 'A' ≤ c ∧ c ≤ 'F' then some (c.toNat - 'A'.toNat + 10)
  else none

/-- Model of `urllib.parse.unquote` restricted to single-byte escapes: a
`%XX` escape with two hex digits decodes to the character with code `XX`;
a `%` not followed by two hex digits is kept literally.  (Multi-byte UTF-8
escape sequences are not modelled; no claim depends on them.) -/
def unquoteAux : Nat → PyStr → PyStr
  | 0, l => l
  | fuel + 1, l =>
    match l with
    | [] => []
    | '%' :: a :: b :: rest =>
      match hexVal a, hexVal b with
      | some x, some y => Char.ofNat (16 * x + y) :: unquoteAux fuel rest
      | _, _ => '%' :: unquoteAux fuel (a :: b :: rest)
    | c :: rest => c :: unquoteAux fuel rest

/-- Entry point of the `unquote` model; the fuel (one unit per consumed
character) makes the recursion structural. -/
def unquote (l : PyStr) : PyStr := unquoteAux l.length l

/-- Equality of `Except` values is decidable (needed to evaluate checker
results on concrete inputs). -/
instance {ε α : Type} [DecidableEq ε] [DecidableEq α] : DecidableEq (Except ε α) := fun x y =>
  match x, y with
  | .error a, .error b =>
    if h : a = b then .isTrue (by rw [h]) else .isFalse (fun hc => h (Except.error.inj hc))
  | .error _, .ok _ => .isFalse (fun hc => Except.noConfusion hc)
  | .ok _, .error _ => .isFalse (fun hc => Except.noConfusion hc)
  | .ok a, .ok b =>
    if h : a = b then .isTrue (by rw [h]) else .isFalse (fun hc => h (Except.ok.inj hc))

/-- Split at the final `/` (CPython `p.rfind('/') + 1`): the head keeps
everything up to and including the last `/`, the tail is the remainder
(which contains no `/`). -/
def splitLastSlash (l : List Char) : List Char × List Char :=
  ((l.reverse.dropWhile (· != '/')).reverse, (l.reverse.takeWhile (· != '/')).reverse)

/-- Strip trailing `/` characters (Python `str.rstrip('/')`). -/
def rstripSlashes (l : List Char) : List Char :=
  (l.reverse.dropWhile (· == '/')).reverse

/-- Model of POSIX `os.path.split`: split at the final slash; the head
keeps its trailing slashes stripped unless it consists only of slashes. -/
def os_path_split (p : PyStr) : PyStr × PyStr :=
  let (head, tail) := splitLastSlash p
  if head ≠ [] ∧ head.any (· != '/') = true then (rstripSlashes head, tail)
  else (head, tail)

/-- Model of POSIX `os.path.join` for two components, as used by the
source (`os.path.join(*paths)` with a two-element list). -/
def os_path_join (a b : PyStr) : PyStr :=
  if b.take 1 = ['/'] then b
  else if a = [] ∨ a.getLast? = some '/' then a ++ b
  else a ++ '/' :: b

/-- `os.path.basename`. -/
def os_path_basename (p : PyStr) : PyStr := (os_path_split p).2

/-- Model of `os.path.splitext` applied to a basename (no `/` handling
needed by the source, which always passes a basename): split off the
extension at the last dot, unless every character before that dot is a
dot. -/
def os_path_splitext (p : PyStr) : PyStr × PyStr :=
  let r := p.reverse
  let afterDot := r.takeWhile (· != '.')
  if afterDot.length = p.length then (p, [])
  else
    let pre := (r.drop (afterDot.length + 1)).reverse
    if pre.all (· == '.') then (p, [])
    else (pre, '.' :: afterDot.reverse)

/-- Result of `urllib.parse.urlparse` (the `params` component, split at
`;` in the last path segment, is not modelled; no input of interest
contains `;`). -/
structure ParsedUrl where
  scheme : PyStr
  netloc : PyStr
  path : PyStr
  query : PyStr
  fragment : PyStr
deriving DecidableEq, Repr

/-- Characters allowed in a URL scheme. -/
def scheme_chars : PyStr :=
  "abcdefghijklmnopqrstuvwxyzABCDEFGHIJKLMNOPQRSTUVWXYZ0123456789+-.".data

/-- Scheme stage of CPython `urlsplit`: an optional scheme before the
first `:` (lower-cased) when it is a well-formed scheme name. -/
def splitScheme (url : PyStr) : PyStr × PyStr :=
  let pre := url.takeWhile (· != ':')
  if pre.length < url.length ∧ pre ≠ [] ∧ (pre.headD ' ').isAlpha = true ∧
      pre.all (fun c => scheme_chars.contains c) = true then
    (pre.map Char.toLower, url.drop (pre.length + 1))
  else ([], url)

/-- Netloc stage of CPython `urlsplit`: a leading `//` introduces the
netloc, delimited by `/`, `?` or `#`. -/
def splitNetloc : PyStr → PyStr × PyStr
  | '/' :: '/' :: r =>
    (r.takeWhile (fun c => c != '/' && c != '?' && c != '#'),
     r.dropWhile (fun c => c != '/' && c != '?' && c != '#'))
  | rest => ([], rest)

/-- Fragment stage of CPython `urlsplit`: split at the first `#`. -/
def splitFragment (rest : PyStr) : PyStr × PyStr :=
  (rest.takeWhile (· != '#'), (rest.dropWhile (· != '#')).drop 1)

/-- Query stage of CPython `urlsplit`: split at the first `?`. -/
def splitQuery (rest : PyStr) : PyStr × PyStr :=
  (rest.takeWhile (· != '?'), (rest.dropWhile (· != '?')).drop 1)

/-- Model of `urllib.parse.urlparse` (CPython `urlsplit`), composed from
its stages in CPython's order. -/
def urlparse (url : PyStr) : ParsedUrl :=
  let (scheme, rest) := splitScheme url
  let (netloc, rest) := splitNetloc rest
  let (rest, fragment) := splitFragment rest
  let (path, query) := splitQuery rest
  { scheme := scheme, netloc := netloc, path := path, query := query, fragment := fragment }

/-- The `hostname` attribute of a parse result: the part of the netloc
after the last `@` and before the port `:`, lower-cased; `None` when
empty.  (IPv6 bracket syntax is not modelled.) -/
def hostname (p : ParsedUrl) : Option PyStr :=
  let hostinfo := (p.netloc.reverse.takeWhile (· != '@')).reverse
  let host := hostinfo.takeWhile (· != ':')
  if host = [] then none else some (host.map Char.toLower)

/-- The `geturl()` method (CPython `urlunsplit`). -/
def geturl (p : ParsedUrl) : PyStr :=
  let url := p.path
  let url :=
    if p.netloc ≠ [] ∨ url.take 2 = ['/', '/'] then
      '/' :: '/' :: (p.netloc ++ (if url ≠ [] ∧ url.take 1 ≠ ['/'] then '/' :: url else url))
    else url
  let url := if p.scheme ≠ [] then p.scheme ++ ':' :: url else url
  let url := if p.query ≠ [] then url ++ '?' :: p.query else url
  if p.fragment ≠ [] then url ++ '#' :: p.fragment else url

/-! ## Constants of the source (`main.py` lines 30-39) -/

def DEAD_LINKS_FILE : PyStr := "./dead-links.tsv".data

def DEAD_ANCHORS_FILE : PyStr := "./dead-anchors.tsv".data

def UNIPROT_BETA_HELP_URL : PyStr := "https://beta.uniprot.org/help".data

def UNIPROT_ORG_URL : PyStr := "www.uniprot.org".data

def UNIPROT_BETA_URL : PyStr := "beta.uniprot.org".data

def UNIPROT_ORG_KB_PATH : PyStr := "/uniprot".data

def UNIPROT_BETA_KB_PATH : PyStr := "/uniprotkb".data

/-! ## External collaborators

The Selenium driver, the `requests` client and the `ftplib` client are
modelled as oracles.  An operation that can raise a transport exception
returns `Except Unit _`; `.error ()` is a raised exception. -/

/-- The rendered page the Selenium driver observes after `driver.get`:
which class names and which element ids are present.  `find_elements`
returns a non-empty list exactly when the queried name is present, and
`WebDriverWait ... presence_of_element_located` succeeds exactly in that
case. -/
structure Page where
  classNames : List PyStr
  ids : List PyStr

/-- An `ftplib.FTP` connection to one host: whether the constructor
connects, whether anonymous `login()` succeeds, and the outcomes of
`cwd` and `size` per (percent-decoded) path. -/
structure FtpHost where
  connect : Except Unit Unit
  login : Except Unit Unit
  cwd : PyStr → Except Unit Unit
  size : PyStr → Except Unit Nat

/-- A `requests.get` response; only `response.ok` is inspected. -/
structure HttpResponse where
  ok : Bool

/-- All external collaborators of one run. -/
structure Env where
  render : PyStr → Except Unit Page
  httpGet : PyStr → Except Unit HttpResponse
  ftp : PyStr → FtpHost

/-- Exceptions that escape the checker functions: a failed `assert`, or
a Selenium `WebDriverException` raised by `driver.get` (the source wraps
it in no try/except). -/
inductive CheckErr where
  | assertionError
  | webDriverError
deriving DecidableEq, Repr

/-- Which external checking path the dispatcher `is_url_ok` invoked,
with the URL handed over: the FTP probe (line 114), the rendered-page
check on the rewritten beta URL (line 138), or the plain-HTTP probe on
the original URL (line 144). -/
inductive Effect where
  | ftpCheck (parsed : ParsedUrl)
  | betaCheck (parsed : ParsedUrl)
  | genericCheck (url : PyStr)
deriving DecidableEq, Repr

/-! ## Checker functions (`main.py` lines 48-144) -/

/-- Lines 48-53: `does_page_exist` — a plain GET; any exception is caught
by the bare `except` and yields `False`. -/
def does_page_exist (httpGet : PyStr → Except Unit HttpResponse) (url : PyStr) : Bool :=
  match httpGet url with
  | .error _ => false
  | .ok response => response.ok

/-- Lines 56-63: `is_anchor_in_page` — wait for an element with the given
id; a timeout is caught and yields `False`, otherwise `find_elements`
re-checks presence.  Both reduce to membership of the id in the rendered
page. -/
def is_anchor_in_page (page : Page) (anchor : PyStr) : Bool :=
  page.ids.contains anchor

/-- Lines 79-90: `is_uniprot_beta_url_ok` — assert the beta hostname is a
substring of the URL, navigate to it (an exception here propagates),
report dead on a not-found marker, otherwise check the fragment's anchor
when one is present. -/
def is_uniprot_beta_url_ok (render : PyStr → Except Unit Page) (parsed : ParsedUrl) :
    Except CheckErr (Bool × Option Bool) :=
  let url := geturl parsed
  if containsSub UNIPROT_BETA_URL url then
    match render url with
    | .error _ => .error .webDriverError
    | .ok page =>
      let not_found_class_names := ["message--failure".data, "error-page-container__art-work".data]
      if not_found_class_names.any (fun class_name => page.classNames.contains class_name) then
        .ok (false, none)
      else if parsed.fragment ≠ [] then
        .ok (true, some (is_anchor_in_page page (unquote parsed.fragment)))
      else
        .ok (true, none)
  else .error .assertionError

/-- Lines 93-108: `is_ftp_url_ok` — connect and log in (any exception
yields `False`), then try the path as a directory, then as a file; every
exception is caught. -/
def is_ftp_url_ok (ftp : PyStr → FtpHost) (parsed : ParsedUrl) : Bool :=
  let host := ftp parsed.netloc
  match host.connect, host.login with
  | .ok _, .ok _ =>
    let path := unquote parsed.path
    match host.cwd path with
    | .ok _ => true
    | .error _ =>
      match host.size path with
      | .ok _ => true
      | .error _ => false
  | _, _ => false

/-- Lines 111-144: `is_url_ok` — dispatch on scheme and host, rewriting
legacy uniprot.org paths before the rendered-page check.  The second
component records which external checking path was invoked and with
which URL. -/
def is_url_ok (env : Env) (url : PyStr) :
    Except CheckErr (Bool × Option Bool) × List Effect :=
  let parsed := urlparse url
  if parsed.scheme = "ftp".data then
    (.ok (is_ftp_url_ok env.ftp parsed, none), [.ftpCheck parsed])
  else
    let paths := os_path_split parsed.path
    -- If nothing as hostname assume this to be uniprot
    let parsed := if (hostname parsed).isNone then { parsed with netloc := UNIPROT_ORG_URL } else parsed
    -- Check if this is uniprot.org
    if hostname parsed = some UNIPROT_ORG_URL then
      -- Always use HTTPS
      let parsed := { parsed with scheme := "https".data }
      let parsed :=
        -- Check if this uniprot(kb) and if so replace path
        if paths.1.map Char.toLower = UNIPROT_ORG_KB_PATH then
          { parsed with path := os_path_join UNIPROT_BETA_KB_PATH paths.2 }
        -- /manual redirects to /help now
        else if paths.1 = "/manual".data then
          { parsed with path := os_path_join "/help/".data paths.2 }
        else parsed
      -- Check that the corresponding beta page exists
      let beta_parsed := { parsed with netloc := UNIPROT_BETA_URL }
      (is_uniprot_beta_url_ok env.render beta_parsed, [.betaCheck beta_parsed])
    else
      (.ok (does_page_exist env.httpGet url, none), [.genericCheck url])

/-! ## Per-document processing (`main.py` lines 42-45 and 147-195) -/

/-- Lines 42-45: `get_beta_help_url` — map a help file path to its
published beta help-page URL. -/
def get_beta_help_url (help_file : PyStr) : PyStr :=
  let basename := os_path_basename help_file
  let filename := (os_path_splitext basename).1
  os_path_join UNIPROT_BETA_HELP_URL filename

/-- An `<a>` element found by BeautifulSoup: its `href` attribute when
present, and the values of its other attributes (used in the
malformed-anchor diagnostic). -/
structure Anchor where
  href : Option PyStr
  attrs : List PyStr

/-- The diagnostic string for an anchor element without `href`
(line 152). -/
def anchorTagMsg (el : Anchor) : PyStr :=
  "Anchor tag: ".data ++ List.intercalate ",".data el.attrs

/-- Lines 147-160, loop body: walk the anchor elements in document order,
collecting dead links and dead anchors; an exception escaping
`is_url_ok` aborts the whole document.  `ok` is always a `Bool` here, so
the source's `ok is not None and not ok` guard is `ok = false` (likewise
for `anchor_found` with `Option Bool`). -/
def checkLinks (env : Env) : List Anchor → Except CheckErr (List PyStr × List PyStr)
  | [] => .ok ([], [])
  | el :: rest =>
    match el.href with
    | none =>
      match checkLinks env rest with
      | .error e => .error e
      | .ok (dl, da) => .ok (anchorTagMsg el :: dl, da)
    | some url =>
      match (is_url_ok env url).1 with
      | .error e => .error e
      | .ok (ok, anchor_found) =>
        match checkLinks env rest with
        | .error e => .error e
        | .ok (dl, da) =>
          .ok ((if ok = false then url :: dl else dl),
               (match anchor_found with
                | some af => if af = false then url :: da else da
                | none => da))

/-- Lines 147-160: `check_and_standardize_all_links` — the Python
`set(...)` of each accumulated list is modelled as `List.dedup` (same
membership, no duplicates). -/
def check_and_standardize_all_links (env : Env) (soup : List Anchor) :
    Except CheckErr (List PyStr × List PyStr) :=
  match checkLinks env soup with
  | .error e => .error e
  | .ok (dl, da) => .ok (dl.dedup, da.dedup)

/-- Render a checker exception the way the driver's `print(e)` would. -/
def checkErrMsg : CheckErr → PyStr
  | .assertionError => "AssertionError".data
  | .webDriverError => "WebDriverException".data

/-- One help file of the run: its path and the outcome of reading,
markdown-converting, and soup-parsing it (any of which may raise). -/
structure HelpFile where
  path : PyStr
  parsed : Except PyStr (List Anchor)

/-- Lines 180-193, body of the per-file `try`: parse the file, check its
links, and tag each dead link/anchor with the document's published URL.
A record `(u, t)` models the emitted tab-separated line `u\t t`. -/
def processFile (env : Env) (hf : HelpFile) :
    Except PyStr (List (PyStr × PyStr) × List (PyStr × PyStr)) :=
  match hf.parsed with
  | .error e => .error e
  | .ok soup =>
    match check_and_standardize_all_links env soup with
    | .error e => .error (checkErrMsg e)
    | .ok (dead_links, dead_anchors) =>
      let beta_help_url := get_beta_help_url hf.path
      .ok (dead_links.map (fun dead_link => (beta_help_url, dead_link)),
           dead_anchors.map (fun dead_anchor => (beta_help_url, dead_anchor)))

/-- Lines 178-195: the `__main__` loop — each file is processed inside a
`try`; on an exception the error is printed (third component) and the
loop continues with the next file.  Returns the dead-links table, the
dead-anchors table, and the printed errors. -/
def runDocs (env : Env) :
    List HelpFile → List (PyStr × PyStr) × List (PyStr × PyStr) × List PyStr
  | [] => ([], [], [])
  | hf :: rest =>
    let this := processFile env hf
    let (lf, af, log) := runDocs env rest
    match this with
    | .ok (dl, da) => (dl ++ lf, da ++ af, log)
    | .error e => (lf, af, e :: log)

/-! ## Concrete oracle environments used by witnesses and
counterexamples -/

/-- An environment in which every external operation raises. -/
def envBad : Env where
  render := fun _ => .error ()
  httpGet := fun _ => .error ()
  ftp := fun _ =>
    { connect := .error (), login := .error (),
      cwd := fun _ => .error (), size := fun _ => .error () }

/-- A page with no failure markers and no ids. -/
def pageEmpty : Page where
  classNames := []
  ids := []

/-- A page showing the `message--failure` marker. -/
def pageFail : Page where
  classNames := ["message--failure".data]
  ids := []

/-- An environment in which every external operation succeeds and every
rendered page is `pageEmpty`. -/
def envOk : Env where
  render := fun _ => .ok pageEmpty
  httpGet := fun _ => .ok { ok := true }
  ftp := fun _ =>
    { connect := .ok (), login := .ok (),
      cwd := fun _ => .ok (), size := fun _ => .ok 0 }

/-! ## Helper lemmas about the string machinery -/

theorem takeWhile_append_stop {α} {p : α → Bool} {l₁ : List α} {c : α} (l₂ : List α)
    (h1 : ∀ a ∈ l₁, p a = true) (h2 : p c = false) :
    (l₁ ++ c :: l₂).takeWhile p = l₁ := by
  induction l₁ with
  | nil => simp [List.takeWhile_cons, h2]
  | cons x xs ih =>
    have hx := h1 x (by simp)
    simp only [List.cons_append, List.takeWhile_cons, hx, if_true]
    rw [ih (fun a ha => h1 a (by simp [ha]))]

theorem dropWhile_append_stop {α} {p : α → Bool} {l₁ : List α} {c : α} (l₂ : List α)
    (h1 : ∀ a ∈ l₁, p a = true) (h2 : p c = false) :
    (l₁ ++ c :: l₂).dropWhile p = c :: l₂ := by
  induction l₁ with
  | nil => simp [List.dropWhile_cons, h2]
  | cons x xs ih =>
    have hx := h1 x (by simp)
    simp only [List.cons_append, List.dropWhile_cons, hx, if_true]
    exact ih (fun a ha => h1 a (by simp [ha]))

theorem takeWhile_of_all {α} {p : α → Bool} {l : List α} (h : ∀ a ∈ l, p a = true) :
    l.takeWhile p = l := by
  induction l with
  | nil => rfl
  | cons x xs ih =>
    have hx := h x (by simp)
    simp only [List.takeWhile_cons, hx, if_true]
    rw [ih (fun a ha => h a (by simp [ha]))]

theorem dropWhile_of_all {α} {p : α → Bool} {l : List α} (h : ∀ a ∈ l, p a = true) :
    l.dropWhile p = [] := by
  induction l with
  | nil => rfl
  | cons x xs ih =>
    have hx := h x (by simp)
    simp only [List.dropWhile_cons, hx, if_true]
    exact ih (fun a ha => h a (by simp [ha]))

theorem dropWhile_append_of_ne {α} {p : α → Bool} {l₁ : List α} (l₂ : List α)
    (h : l₁.dropWhile p ≠ []) :
    (l₁ ++ l₂).dropWhile p = l₁.dropWhile p ++ l₂ := by
  induction l₁ with
  | nil => exact absurd rfl h
  | cons x xs ih =>
    by_cases hx : p x = true
    · have h' : xs.dropWhile p ≠ [] := by
        intro hc; apply h; simp [List.dropWhile_cons, hx, hc]
      simp only [List.cons_append, List.dropWhile_cons, hx, if_true]
      exact ih h'
    · have hx' : p x = false := by simpa using hx
      simp [List.dropWhile_cons, hx']

theorem dropWhile_append_of_nil {α} {p : α → Bool} {l₁ : List α} (l₂ : List α)
    (h : l₁.dropWhile p = []) :
    (l₁ ++ l₂).dropWhile p = l₂.dropWhile p := by
  induction l₁ with
  | nil => rfl
  | cons x xs ih =>
    by_cases hx : p x = true
    · have h' : xs.dropWhile p = [] := by
        by_contra hc
        rw [List.dropWhile_cons, if_pos hx] at h
        exact hc h
      simp only [List.cons_append, List.dropWhile_cons, hx, if_true]
      exact ih h'
    · have hx' : p x = false := by simpa using hx
      rw [List.dropWhile_cons, if_neg (by simp [hx'])] at h
      exact absurd h (by simp)

theorem dropWhile_of_all_false {α} {p : α → Bool} {l : List α}
    (h : ∀ a ∈ l, p a = false) : l.dropWhile p = l := by
  cases l with
  | nil => rfl
  | cons x xs => rw [List.dropWhile_cons, if_neg (by simp [h x (by simp)])]

theorem mem_takeWhile_pred {α} {p : α → Bool} {l : List α} {a : α}
    (h : a ∈ l.takeWhile p) : p a = true := by
  induction l with
  | nil => simp at h
  | cons x xs ih =>
    by_cases hx : p x = true
    · rw [List.takeWhile_cons, if_pos hx] at h
      rcases List.mem_cons.mp h with h1 | h1
      · exact h1 ▸ hx
      · exact ih h1
    · rw [List.takeWhile_cons, if_neg hx] at h
      simp at h

theorem dropWhile_head_false {α} (p : α → Bool) {l : List α} {a : α} {as : List α}
    (h : l.dropWhile p = a :: as) : p a = false := by
  induction l with
  | nil => simp at h
  | cons x xs ih =>
    by_cases hx : p x = true
    · rw [List.dropWhile_cons, if_pos hx] at h
      exact ih h
    · rw [List.dropWhile_cons, if_neg hx] at h
      cases h
      simpa using hx

theorem splitLastSlash_of_not_mem {l : List Char} (h : '/' ∉ l) :
    splitLastSlash l = ([], l) := by
  have hall : ∀ c ∈ l.reverse, (c != '/') = true := by
    intro c hc
    have : c ∈ l := List.mem_reverse.mp hc
    simp only [bne_iff_ne, ne_eq]
    exact fun hcc => h (hcc ▸ this)
  simp [splitLastSlash, takeWhile_of_all hall, dropWhile_of_all hall]

theorem splitLastSlash_append {ys : List Char} (xs : List Char) (h : '/' ∉ ys) :
    splitLastSlash (xs ++ '/' :: ys) = (xs ++ ['/'], ys) := by
  have hall : ∀ c ∈ ys.reverse, (c != '/') = true := by
    intro c hc
    have : c ∈ ys := List.mem_reverse.mp hc
    simp only [bne_iff_ne, ne_eq]
    exact fun hcc => h (hcc ▸ this)
  have hrev : (xs ++ '/' :: ys).reverse = ys.reverse ++ '/' :: xs.reverse := by
    simp
  have hstop : (('/' : Char) != '/') = false := by decide
  simp only [splitLastSlash, Prod.mk.injEq]
  refine ⟨?_, ?_⟩
  · rw [hrev, dropWhile_append_stop xs.reverse hall hstop]
    simp
  · rw [hrev, takeWhile_append_stop xs.reverse hall hstop]
    simp

theorem splitLastSlash_spec (l : List Char) :
    l = (splitLastSlash l).1 ++ (splitLastSlash l).2 ∧ '/' ∉ (splitLastSlash l).2 ∧
      ((splitLastSlash l).1 = [] ∨ (splitLastSlash l).1.getLast? = some '/') := by
  refine ⟨?_, ?_, ?_⟩
  · show l = ((l.reverse.dropWhile (· != '/')).reverse) ++ ((l.reverse.takeWhile (· != '/')).reverse)
    rw [← List.reverse_append, List.takeWhile_append_dropWhile, List.reverse_reverse]
  · show '/' ∉ (l.reverse.takeWhile (· != '/')).reverse
    intro hm
    have hp := mem_takeWhile_pred (List.mem_reverse.mp hm)
    simp at hp
  · cases hd : l.reverse.dropWhile (· != '/') with
    | nil => left; show (l.reverse.dropWhile (· != '/')).reverse = []; rw [hd]; rfl
    | cons a as =>
      right
      show (l.reverse.dropWhile (· != '/')).reverse.getLast? = some '/'
      have ha : (a != '/') = false := dropWhile_head_false (fun c => c != '/') hd
      have ha' : a = '/' := by simpa using ha
      rw [hd, List.getLast?_reverse, List.head?_cons, ha']

theorem rstripSlashes_of_not_mem {l : List Char} (h : '/' ∉ l) :
    rstripSlashes l = l := by
  have hall : ∀ c ∈ l.reverse, (c == '/') = false := by
    intro c hc
    simp only [beq_eq_false_iff_ne, ne_eq]
    exact fun hcc => h (hcc ▸ List.mem_reverse.mp hc)
  rw [rstripSlashes, dropWhile_of_all_false hall, List.reverse_reverse]

theorem rstripSlashes_append_of_ne {ys : List Char} (xs : List Char)
    (h : rstripSlashes ys ≠ []) :
    rstripSlashes (xs ++ ys) = xs ++ rstripSlashes ys := by
  have h' : ys.reverse.dropWhile (· == '/') ≠ [] := by
    intro hc
    exact h (by simp [rstripSlashes, hc])
  rw [rstripSlashes, List.reverse_append, dropWhile_append_of_ne xs.reverse h']
  simp [rstripSlashes]

theorem rstripSlashes_append_of_nil {ys : List Char} (xs : List Char)
    (h : rstripSlashes ys = []) :
    rstripSlashes (xs ++ ys) = rstripSlashes xs := by
  have h' : ys.reverse.dropWhile (· == '/') = [] := by
    have := congrArg List.reverse h
    simpa [rstripSlashes] using this
  rw [rstripSlashes, List.reverse_append, dropWhile_append_of_nil xs.reverse h']
  rfl

theorem startsL_self_append (n b : PyStr) : startsL n (n ++ b) = true := by
  induction n with
  | nil => rfl
  | cons c cs ih => simp [startsL, ih]

theorem containsSub_append (n a b : PyStr) : containsSub n (a ++ n ++ b) = true := by
  induction a with
  | nil =>
    cases n with
    | nil => cases b <;> simp [containsSub, startsL]
    | cons c cs => simp [containsSub, startsL, startsL_self_append]
  | cons x xs ih =>
    rw [List.append_assoc] at ih
    simp only [List.cons_append, List.append_assoc, containsSub, List.append_eq,
      Bool.or_eq_true]
    exact Or.inr ih

/-! ## Reduction lemmas for `urlparse` on legacy-host URLs -/

theorem splitScheme_https (R : PyStr) :
    splitScheme ("https".data ++ ':' :: R) = ("https".data, R) := by
  have hall : ∀ a ∈ "https".data, (a != ':') = true := by decide
  have hstop : ((':' : Char) != ':') = false := by decide
  have hpre : ("https".data ++ ':' :: R).takeWhile (· != ':') = "https".data :=
    takeWhile_append_stop R hall hstop
  have heq : "https".data ++ ':' :: R = "https:".data ++ R := by
    rw [show ("https:".data : PyStr) = "https".data ++ [':'] from by decide]
    simp
  have hdrop : ("https".data ++ ':' :: R).drop ("https".data.length + 1) = R := by
    rw [heq]
    exact List.drop_left' (by decide)
  have hcond : ("https".data : PyStr).length < ("https".data ++ ':' :: R).length ∧
      ("https".data : PyStr) ≠ [] ∧ (("https".data : PyStr).headD ' ').isAlpha = true ∧
      ("https".data : PyStr).all (fun c => scheme_chars.contains c) = true := by
    refine ⟨?_, by decide, by decide, by decide⟩
    simp
  unfold splitScheme
  simp only [hpre]
  rw [if_pos hcond, hdrop,
    show ("https".data : PyStr).map Char.toLower = "https".data from by decide]

theorem splitNetloc_host (q : PyStr) :
    splitNetloc ('/' :: '/' :: ("www.uniprot.org".data ++ '/' :: q)) =
      ("www.uniprot.org".data, '/' :: q) := by
  have hall : ∀ a ∈ "www.uniprot.org".data,
      (a != '/' && a != '?' && a != '#') = true := by decide
  have hstop : ((('/' : Char) != '/') && (('/' : Char) != '?') && (('/' : Char) != '#')) = false := by
    decide
  simp only [splitNetloc]
  rw [takeWhile_append_stop q hall hstop, dropWhile_append_stop q hall hstop]

theorem splitFragment_clean {l : PyStr} (h : ∀ c ∈ l, (c != '#') = true) :
    splitFragment l = (l, []) := by
  simp only [splitFragment]
  rw [takeWhile_of_all h, dropWhile_of_all h]
  rfl

theorem splitQuery_clean {l : PyStr} (h : ∀ c ∈ l, (c != '?') = true) :
    splitQuery l = (l, []) := by
  simp only [splitQuery]
  rw [takeWhile_of_all h, dropWhile_of_all h]
  rfl

theorem urlparse_eq (url : PyStr) :
    urlparse url =
      { scheme := (splitScheme url).1,
        netloc := (splitNetloc (splitScheme url).2).1,
        path := (splitQuery (splitFragment (splitNetloc (splitScheme url).2).2).1).1,
        query := (splitQuery (splitFragment (splitNetloc (splitScheme url).2).2).1).2,
        fragment := (splitFragment (splitNetloc (splitScheme url).2).2).2 } := rfl

theorem urlparse_uniprot (q : PyStr) (hq : ∀ c ∈ q, c ≠ '#' ∧ c ≠ '?') :
    urlparse ("https://www.uniprot.org".data ++ '/' :: q) =
      { scheme := "https".data, netloc := "www.uniprot.org".data, path := '/' :: q,
        query := [], fragment := [] } := by
  have hsplit : "https://www.uniprot.org".data ++ '/' :: q =
      "https".data ++ ':' :: ('/' :: '/' :: ("www.uniprot.org".data ++ '/' :: q)) := by
    rw [show "https://www.uniprot.org".data =
        "https".data ++ ':' :: ('/' :: '/' :: "www.uniprot.org".data) from by decide]
    simp
  have hfr : ∀ c ∈ '/' :: q, (c != '#') = true := by
    intro c hc
    rcases List.mem_cons.mp hc with h1 | h1
    · subst h1; decide
    · simpa using (hq c h1).1
  have hqu : ∀ c ∈ '/' :: q, (c != '?') = true := by
    intro c hc
    rcases List.mem_cons.mp hc with h1 | h1
    · subst h1; decide
    · simpa using (hq c h1).2
  rw [hsplit, urlparse_eq, splitScheme_https]
  dsimp only
  rw [splitNetloc_host]
  dsimp only
  rw [splitFragment_clean hfr]
  dsimp only
  rw [splitQuery_clean hqu]

theorem hostname_uniprot (s p qu f : PyStr) :
    hostname (⟨s, "www.uniprot.org".data, p, qu, f⟩ : ParsedUrl) =
      some "www.uniprot.org".data := rfl

/-! ## Reduction lemmas for `is_url_ok` on legacy-host URLs -/

theorem is_url_ok_uniprot_kb (env : Env) (q s1 s2 : PyStr)
    (hq : ∀ c ∈ q, c ≠ '#' ∧ c ≠ '?')
    (hsplit : os_path_split ('/' :: q) = (s1, s2))
    (hc1 : s1.map Char.toLower = UNIPROT_ORG_KB_PATH) :
    is_url_ok env ("https://www.uniprot.org".data ++ '/' :: q) =
      (is_uniprot_beta_url_ok env.render
        ⟨"https".data, UNIPROT_BETA_URL, os_path_join UNIPROT_BETA_KB_PATH s2, [], []⟩,
       [Effect.betaCheck
        ⟨"https".data, UNIPROT_BETA_URL, os_path_join UNIPROT_BETA_KB_PATH s2, [], []⟩]) := by
  unfold is_url_ok
  rw [urlparse_uniprot q hq]
  dsimp only
  rw [if_neg (by decide : ¬("https".data : PyStr) = "ftp".data), hsplit, hostname_uniprot]
  dsimp only
  rw [if_neg (by simp : ¬(Option.isNone (some ("www.uniprot.org".data : PyStr))) = true)]
  rw [hostname_uniprot]
  rw [if_pos (show some ("www.uniprot.org".data : PyStr) = some UNIPROT_ORG_URL from rfl)]
  dsimp only
  rw [if_pos hc1]

theorem is_url_ok_uniprot_manual (env : Env) (q s1 s2 : PyStr)
    (hq : ∀ c ∈ q, c ≠ '#' ∧ c ≠ '?')
    (hsplit : os_path_split ('/' :: q) = (s1, s2))
    (hc1 : s1.map Char.toLower ≠ UNIPROT_ORG_KB_PATH)
    (hc2 : s1 = "/manual".data) :
    is_url_ok env ("https://www.uniprot.org".data ++ '/' :: q) =
      (is_uniprot_beta_url_ok env.render
        ⟨"https".data, UNIPROT_BETA_URL, os_path_join "/help/".data s2, [], []⟩,
       [Effect.betaCheck
        ⟨"https".data, UNIPROT_BETA_URL, os_path_join "/help/".data s2, [], []⟩]) := by
  unfold is_url_ok
  rw [urlparse_uniprot q hq]
  dsimp only
  rw [if_neg (by decide : ¬("https".data : PyStr) = "ftp".data), hsplit, hostname_uniprot]
  dsimp only
  rw [if_neg (by simp : ¬(Option.isNone (some ("www.uniprot.org".data : PyStr))) = true)]
  rw [hostname_uniprot]
  rw [if_pos (show some ("www.uniprot.org".data : PyStr) = some UNIPROT_ORG_URL from rfl)]
  dsimp only
  rw [if_neg hc1, if_pos hc2]

theorem is_url_ok_uniprot_noRewrite (env : Env) (q s1 s2 : PyStr)
    (hq : ∀ c ∈ q, c ≠ '#' ∧ c ≠ '?')
    (hsplit : os_path_split ('/' :: q) = (s1, s2))
    (hc1 : s1.map Char.toLower ≠ UNIPROT_ORG_KB_PATH)
    (hc2 : s1 ≠ "/manual".data) :
    is_url_ok env ("https://www.uniprot.org".data ++ '/' :: q) =
      (is_uniprot_beta_url_ok env.render
        ⟨"https".data, UNIPROT_BETA_URL, '/' :: q, [], []⟩,
       [Effect.betaCheck ⟨"https".data, UNIPROT_BETA_URL, '/' :: q, [], []⟩]) := by
  unfold is_url_ok
  rw [urlparse_uniprot q hq]
  dsimp only
  rw [if_neg (by decide : ¬("https".data : PyStr) = "ftp".data), hsplit, hostname_uniprot]
  dsimp only
  rw [if_neg (by simp : ¬(Option.isNone (some ("www.uniprot.org".data : PyStr))) = true)]
  rw [hostname_uniprot]
  rw [if_pos (show some ("www.uniprot.org".data : PyStr) = some UNIPROT_ORG_URL from rfl)]
  dsimp only
  rw [if_neg hc1, if_neg hc2]

/-! ## Shape lemmas for `os_path_split`, `os_path_join` and `geturl` -/

theorem os_path_split_append {ys : List Char} (xs : List Char) (h : '/' ∉ ys)
    (hxs : xs.any (· != '/') = true) :
    os_path_split (xs ++ '/' :: ys) = (rstripSlashes xs, ys) := by
  unfold os_path_split
  rw [splitLastSlash_append xs h]
  dsimp only
  have c1 : xs ++ ['/'] ≠ [] := by simp
  have c2 : (xs ++ ['/']).any (· != '/') = true := by
    rw [List.any_append, hxs]
    rfl
  rw [if_pos ⟨c1, c2⟩, rstripSlashes_append_of_nil xs (by decide)]

theorem os_path_split_root {c : List Char} (h : '/' ∉ c) :
    os_path_split ('/' :: c) = (['/'], c) := by
  unfold os_path_split
  have hs := splitLastSlash_append [] h
  simp only [List.nil_append] at hs
  rw [hs]
  dsimp only
  rw [if_neg (by decide)]

theorem rstripSlashes_slash_cons {c : List Char} (h : '/' ∉ c) (hne : c ≠ []) :
    rstripSlashes ('/' :: c) = '/' :: c := by
  have h1 : rstripSlashes c ≠ [] := by
    rw [rstripSlashes_of_not_mem h]
    exact hne
  have := rstripSlashes_append_of_ne ['/'] h1
  simpa [rstripSlashes_of_not_mem h] using this

theorem os_path_join_kb {P : PyStr} (h : '/' ∉ P) :
    os_path_join UNIPROT_BETA_KB_PATH P = "/uniprotkb/".data ++ P := by
  unfold os_path_join
  have h1 : P.take 1 ≠ ['/'] := by
    cases P with
    | nil => simp
    | cons c cs =>
      simp only [List.take, ne_eq, List.cons.injEq, and_true]
      exact fun hc => h (by simp [hc])
  rw [if_neg h1, if_neg (by decide)]
  rw [show ("/uniprotkb/".data : PyStr) = "/uniprotkb".data ++ ['/'] from by decide]
  simp [UNIPROT_BETA_KB_PATH]

theorem os_path_join_help (P : PyStr) (h : '/' ∉ P) :
    os_path_join "/help/".data P = "/help/".data ++ P := by
  unfold os_path_join
  have h1 : P.take 1 ≠ ['/'] := by
    cases P with
    | nil => simp
    | cons c cs =>
      simp only [List.take, ne_eq, List.cons.injEq, and_true]
      exact fun hc => h (by simp [hc])
  rw [if_neg h1, if_pos (Or.inr (by decide))]

theorem geturl_beta {path : PyStr} (h : path.take 1 = ['/']) :
    geturl ⟨"https".data, UNIPROT_BETA_URL, path, [], []⟩ =
      "https://beta.uniprot.org".data ++ path := by
  unfold geturl
  dsimp only
  rw [if_neg (show ¬(path ≠ [] ∧ path.take 1 ≠ ['/']) from by simp [h])]
  rw [if_pos (show UNIPROT_BETA_URL ≠ [] ∨ path.take 2 = ['/', '/'] from Or.inl (by decide))]
  rw [if_pos (show ("https".data : PyStr) ≠ [] from by decide)]
  rw [if_neg (show ¬(([] : PyStr) ≠ []) from by simp)]
  rw [if_neg (show ¬(([] : PyStr) ≠ []) from by simp)]
  simp [UNIPROT_BETA_URL, List.cons_append, List.append_assoc]

theorem containsSub_netloc_geturl (p : ParsedUrl) (h : p.netloc ≠ []) :
    containsSub p.netloc (geturl p) = true := by
  unfold geturl
  dsimp only
  rw [if_pos (show p.netloc ≠ [] ∨ p.path.take 2 = ['/', '/'] from Or.inl h)]
  obtain ⟨X, hX⟩ : ∃ X, (if p.path ≠ [] ∧ p.path.take 1 ≠ ['/'] then '/' :: p.path
      else p.path) = X := ⟨_, rfl⟩
  rw [hX]
  obtain ⟨s, hs⟩ : ∃ s, (if p.scheme ≠ [] then
        p.scheme ++ ':' :: ('/' :: '/' :: (p.netloc ++ X))
      else '/' :: '/' :: (p.netloc ++ X)) = s ++ p.netloc ++ X := by
    by_cases hsch : p.scheme ≠ []
    · exact ⟨p.scheme ++ [':', '/', '/'], by rw [if_pos hsch]; simp⟩
    · exact ⟨['/', '/'], by rw [if_neg hsch]; simp⟩
  rw [hs]
  obtain ⟨t, ht⟩ : ∃ t, (if p.fragment ≠ [] then
        (if p.query ≠ [] then s ++ p.netloc ++ X ++ '?' :: p.query
          else s ++ p.netloc ++ X) ++ '#' :: p.fragment
      else (if p.query ≠ [] then s ++ p.netloc ++ X ++ '?' :: p.query
          else s ++ p.netloc ++ X)) = s ++ p.netloc ++ (X ++ t) := by
    by_cases hq : p.query ≠ [] <;> by_cases hf : p.fragment ≠ []
    · exact ⟨'?' :: p.query ++ '#' :: p.fragment, by rw [if_pos hf, if_pos hq]; simp⟩
    · exact ⟨'?' :: p.query, by rw [if_neg hf, if_pos hq]; simp⟩
    · exact ⟨'#' :: p.fragment, by rw [if_pos hf, if_neg hq]; simp⟩
    · exact ⟨[], by rw [if_neg hf, if_neg hq]; simp⟩
  rw [ht]
  exact containsSub_append p.netloc s (X ++ t)

/-! ## Generic lemmas about the checkers -/

theorem is_uniprot_beta_no_assert (render : PyStr → Except Unit Page) (p : ParsedUrl)
    (h : p.netloc = UNIPROT_BETA_URL) :
    is_uniprot_beta_url_ok render p ≠ Except.error CheckErr.assertionError := by
  unfold is_uniprot_beta_url_ok
  dsimp only
  have hc : containsSub UNIPROT_BETA_URL (geturl p) = true := by
    rw [← h]
    exact containsSub_netloc_geturl p (by rw [h]; decide)
  rw [if_pos hc]
  cases hr : render (geturl p) with
  | error e => simp
  | ok page =>
    dsimp only
    split
    · simp
    · split <;> simp

/-! ## Claim theorems -/

/-- C9: the assertion inside the known-site page check (beta hostname is
a substring of the URL) can never fail when the check is reached through
the dispatcher `is_url_ok`, because the dispatcher installs the beta
hostname as the netloc immediately before the call: no invocation of
`is_url_ok` can surface the assertion failure. -/
theorem c9_assertion_unreachable (env : Env) (url : PyStr) :
    (is_url_ok env url).1 ≠ Except.error CheckErr.assertionError := by
  unfold is_url_ok
  generalize urlparse url = pu
  dsimp only
  split
  · exact fun hc => Except.noConfusion hc
  · split <;> split
    · exact is_uniprot_beta_no_assert env.render _ rfl
    · exact fun hc => Except.noConfusion hc
    · exact is_uniprot_beta_no_assert env.render _ rfl
    · exact fun hc => Except.noConfusion hc

/-- C6: for a URL whose parsed scheme is `ftp`, the dispatcher takes only
the FTP path: the result is the FTP probe paired with anchor
not-applicable, the recorded external effect is exactly one FTP check on
the unmodified parse result (so neither the page renderer nor the plain
HTTP client is invoked, and no rewriting is applied). -/
theorem c6_ftp_only (env : Env) (url : PyStr) (h : (urlparse url).scheme = "ftp".data) :
    is_url_ok env url =
      (.ok (is_ftp_url_ok env.ftp (urlparse url), none),
       [Effect.ftpCheck (urlparse url)]) := by
  unfold is_url_ok
  dsimp only
  rw [if_pos h]

/-- Witness for C6 at the concrete URL `ftp://ftp.expasy.org/db`. -/
theorem c6_ftp_only_witness :
    (urlparse "ftp://ftp.expasy.org/db".data).scheme = "ftp".data ∧
    is_url_ok envOk "ftp://ftp.expasy.org/db".data =
      (.ok (is_ftp_url_ok envOk.ftp (urlparse "ftp://ftp.expasy.org/db".data), none),
       [Effect.ftpCheck (urlparse "ftp://ftp.expasy.org/db".data)]) :=
  ⟨by decide, c6_ftp_only envOk "ftp://ftp.expasy.org/db".data (by decide)⟩

/-- C4: when the rendered page carries a `message--failure` marker (or
the error-page art marker), the known-site check returns reachable =
false with anchor not-applicable, whatever the fragment is — the
fragment and the page ids are never consulted. -/
theorem c4_failure_marker (render : PyStr → Except Unit Page) (p : ParsedUrl) (page : Page)
    (hassert : containsSub UNIPROT_BETA_URL (geturl p) = true)
    (hrender : render (geturl p) = .ok page)
    (hmark : page.classNames.contains "message--failure".data = true ∨
      page.classNames.contains "error-page-container__art-work".data = true) :
    is_uniprot_beta_url_ok render p = .ok (false, none) := by
  unfold is_uniprot_beta_url_ok
  dsimp only
  rw [if_pos hassert, hrender]
  dsimp only
  have hany : (["message--failure".data, "error-page-container__art-work".data].any
      (fun class_name => page.classNames.contains class_name)) = true := by
    simp only [List.any_cons, List.any_nil, Bool.or_false]
    rcases hmark with h | h
    · rw [h, Bool.true_or]
    · rw [h, Bool.or_true]
  rw [if_pos hany]

/-- A parsed known-site URL carrying a fragment, used as concrete input
by several witnesses. -/
def pFrag : ParsedUrl :=
  ⟨"https".data, "beta.uniprot.org".data, "/help/faq".data, [], "sec%20x".data⟩

/-- Witness for C4: a page showing `message--failure`, checked at a URL
that carries a fragment. -/
theorem c4_failure_marker_witness :
    pageFail.classNames.contains "message--failure".data = true ∧
    pFrag.fragment ≠ [] ∧
    is_uniprot_beta_url_ok (fun _ => .ok pageFail) pFrag = .ok (false, none) :=
  ⟨by decide, by decide,
   c4_failure_marker (fun _ => .ok pageFail) pFrag pageFail (by decide) rfl
     (Or.inl (by decide))⟩

/-- C5: when the rendered page has no failure marker, the URL carries a
fragment, and no element with the percent-decoded fragment id is present
(the bounded wait times out), the known-site check returns reachable =
true and anchor-present = false. -/
theorem c5_anchor_missing (render : PyStr → Except Unit Page) (p : ParsedUrl) (page : Page)
    (hassert : containsSub UNIPROT_BETA_URL (geturl p) = true)
    (hrender : render (geturl p) = .ok page)
    (hm1 : page.classNames.contains "message--failure".data = false)
    (hm2 : page.classNames.contains "error-page-container__art-work".data = false)
    (hfrag : p.fragment ≠ [])
    (hanchor : page.ids.contains (unquote p.fragment) = false) :
    is_uniprot_beta_url_ok render p = .ok (true, some false) := by
  unfold is_uniprot_beta_url_ok
  dsimp only
  rw [if_pos hassert, hrender]
  dsimp only
  have hany : (["message--failure".data, "error-page-container__art-work".data].any
      (fun class_name => page.classNames.contains class_name)) = false := by
    simp only [List.any_cons, List.any_nil, Bool.or_false]
    rw [hm1, hm2, Bool.false_or]
  rw [if_neg (by rw [hany]; exact Bool.false_ne_true), if_pos hfrag]
  unfold is_anchor_in_page
  rw [hanchor]

/-- Witness for C5: an empty rendered page and the fragment `sec%20x`
(decoding to an id that is not present). -/
theorem c5_anchor_missing_witness :
    pFrag.fragment ≠ [] ∧
    pageEmpty.ids.contains (unquote pFrag.fragment) = false ∧
    is_uniprot_beta_url_ok (fun _ => .ok pageEmpty) pFrag = .ok (true, some false) :=
  ⟨by decide, by decide,
   c5_anchor_missing (fun _ => .ok pageEmpty) pFrag pageEmpty (by decide) rfl
     (by decide) (by decide) (by decide) (by decide)⟩

/-- C3 (amended): the FTP probe and the plain-HTTP probe convert every
transport exception into reachable = false and never propagate it, but
the known-site rendered-page check wraps `driver.get` in no handler: a
transport exception raised there escapes to the caller (it is only
caught at document granularity). -/
theorem c3_exception_handling (env : Env) (url : PyStr) (p : ParsedUrl) :
    (env.httpGet url = .error () → does_page_exist env.httpGet url = false) ∧
    ((env.ftp p.netloc).connect = .error () ∨ (env.ftp p.netloc).login = .error () →
      is_ftp_url_ok env.ftp p = false) ∧
    ((env.ftp p.netloc).cwd (unquote p.path) = .error () →
      (env.ftp p.netloc).size (unquote p.path) = .error () →
      is_ftp_url_ok env.ftp p = false) ∧
    (containsSub UNIPROT_BETA_URL (geturl p) = true → env.render (geturl p) = .error () →
      is_uniprot_beta_url_ok env.render p = .error CheckErr.webDriverError) := by
  refine ⟨?_, ?_, ?_, ?_⟩
  · intro h
    unfold does_page_exist
    rw [h]
  · intro h
    unfold is_ftp_url_ok
    dsimp only
    rcases h with h | h
    · rw [h]
    · cases hcon : (env.ftp p.netloc).connect with
      | error e => rfl
      | ok u => rw [h]
  · intro h1 h2
    unfold is_ftp_url_ok
    dsimp only
    cases hcon : (env.ftp p.netloc).connect with
    | error e => rfl
    | ok u =>
      cases hlog : (env.ftp p.netloc).login with
      | error e => cases u; rfl
      | ok v => cases u; cases v; rw [h1, h2]
  · intro ha hr
    unfold is_uniprot_beta_url_ok
    dsimp only
    rw [if_pos ha, hr]

/-- Witness for C3 (amended) at the all-failing environment. -/
theorem c3_exception_handling_witness :
    does_page_exist envBad.httpGet "https://example.org/x".data = false ∧
    is_ftp_url_ok envBad.ftp pFrag = false ∧
    is_uniprot_beta_url_ok envBad.render pFrag = .error CheckErr.webDriverError :=
  ⟨(c3_exception_handling envBad "https://example.org/x".data pFrag).1 rfl,
   (c3_exception_handling envBad "https://example.org/x".data pFrag).2.1 (Or.inl rfl),
   (c3_exception_handling envBad "https://example.org/x".data pFrag).2.2.2 (by decide) rfl⟩

/-- C3 counterexample to the claim as stated: on a legacy-host URL the
dispatcher reaches the known-site rendered-page check, and a transport
exception raised by `driver.get` is not converted into reachable = false
— it propagates out of the liveness checker to its caller. -/
theorem c3_counterexample :
    (is_url_ok envBad "https://www.uniprot.org/help/faq".data).1 =
      .error CheckErr.webDriverError ∧
    (is_url_ok envBad "https://www.uniprot.org/help/faq".data).1 ≠ .ok (false, none) := by
  exact ⟨by decide, by decide⟩

/-! ## Character-class helpers for the rewrite claims -/

theorem char_not_mem_of_lower {c t : PyStr} (hc : c.map Char.toLower = t)
    {x : Char} (hx : Char.toLower x = x) (hxt : x ∉ t) : x ∉ c := by
  intro hm
  have hmem : Char.toLower x ∈ c.map Char.toLower := List.mem_map_of_mem Char.toLower hm
  rw [hc, hx] at hmem
  exact hxt hmem

theorem map_lower_manual_len {c : PyStr} (hc : c.map Char.toLower = "manual".data) :
    c.length = 6 := by
  have h := congrArg List.length hc
  simpa using h

theorem manual_head_ne_kb {c : PyStr} (hc : c.map Char.toLower = "manual".data) (W : PyStr) :
    ¬(('/' :: c ++ W).map Char.toLower = UNIPROT_ORG_KB_PATH) := by
  intro h
  rw [show (('/' :: c ++ W) : PyStr) = '/' :: (c ++ W) from rfl] at h
  rw [List.map_cons, List.map_append, hc] at h
  rw [show Char.toLower '/' = '/' from by decide] at h
  rw [show (UNIPROT_ORG_KB_PATH : PyStr) = '/' :: 'u' :: "niprot".data from by decide] at h
  have h2 := (List.cons.inj h).2
  rw [show ("manual".data : PyStr) = 'm' :: "anual".data from by decide, List.cons_append] at h2
  exact absurd (List.cons.inj h2).1 (by decide)

theorem manual_head_ne_manual {c : PyStr} (hc : c.map Char.toLower = "manual".data)
    (hcne : c ≠ "manual".data) (W : PyStr) :
    ¬(('/' :: c ++ W) = "/manual".data) := by
  intro h
  have hc6 : c.length = 6 := map_lower_manual_len hc
  have h7 : ("/manual".data : PyStr).length = 7 := by decide
  have hlen := congrArg List.length h
  rw [h7] at hlen
  simp only [List.cons_append, List.length_cons, List.length_append, hc6] at hlen
  have hW : W = [] := List.eq_nil_of_length_eq_zero (by omega)
  subst hW
  rw [List.append_nil] at h
  rw [show ("/manual".data : PyStr) = '/' :: "manual".data from by decide] at h
  exact hcne (List.cons.inj h).2

/-- C1 (amended): for a legacy knowledge-base URL whose remainder `P` is
a single path segment (non-empty, containing no `/`), the dispatcher
rewrites `/<seg>/P` (first segment matching `uniprot` case-insensitively)
to `/uniprotkb/P` with `P` unchanged, and hands the renderer exactly the
URL `https://beta.uniprot.org/uniprotkb/P`.  (With a multi-segment or
trailing-slash remainder the rewrite does not fire — see the
counterexample.) -/
theorem c1_kb_rewrite (env : Env) (seg P : PyStr)
    (hseg : seg.map Char.toLower = "uniprot".data)
    (hP : P ≠ [])
    (hPc : ∀ c ∈ P, c ≠ '/' ∧ c ≠ '#' ∧ c ≠ '?') :
    (is_url_ok env ("https://www.uniprot.org".data ++ '/' :: (seg ++ '/' :: P))).2 =
      [Effect.betaCheck ⟨"https".data, UNIPROT_BETA_URL, "/uniprotkb/".data ++ P, [], []⟩] ∧
    geturl ⟨"https".data, UNIPROT_BETA_URL, "/uniprotkb/".data ++ P, [], []⟩ =
      "https://beta.uniprot.org/uniprotkb/".data ++ P := by
  have hslash : '/' ∉ seg := char_not_mem_of_lower hseg (by decide) (by decide)
  have hhash : '#' ∉ seg := char_not_mem_of_lower hseg (by decide) (by decide)
  have hquest : '?' ∉ seg := char_not_mem_of_lower hseg (by decide) (by decide)
  have hsegne : seg ≠ [] := by
    intro h
    rw [h] at hseg
    exact absurd hseg (by decide)
  have hPslash : '/' ∉ P := fun hm => ((hPc _ hm).1 rfl)
  have hq : ∀ c ∈ seg ++ '/' :: P, c ≠ '#' ∧ c ≠ '?' := by
    intro c hcm
    rcases List.mem_append.mp hcm with h | h
    · exact ⟨fun he => hhash (he ▸ h), fun he => hquest (he ▸ h)⟩
    · rcases List.mem_cons.mp h with h | h
      · subst h
        exact ⟨by decide, by decide⟩
      · exact ⟨(hPc _ h).2.1, (hPc _ h).2.2⟩
  have hany : ('/' :: seg).any (· != '/') = true := by
    cases seg with
    | nil => exact absurd rfl hsegne
    | cons s0 srest =>
      have hs0 : s0 ≠ '/' := fun he => hslash (by simp [he])
      exact List.any_eq_true.mpr ⟨s0, by simp, by simp [hs0]⟩
  have hsplit : os_path_split ('/' :: (seg ++ '/' :: P)) = ('/' :: seg, P) := by
    have hpath : '/' :: (seg ++ '/' :: P) = ('/' :: seg) ++ '/' :: P := by simp
    rw [hpath, os_path_split_append _ hPslash hany, rstripSlashes_slash_cons hslash hsegne]
  have hc1 : ('/' :: seg).map Char.toLower = UNIPROT_ORG_KB_PATH := by
    rw [List.map_cons, hseg]
    decide
  have hmain := is_url_ok_uniprot_kb env (seg ++ '/' :: P) ('/' :: seg) P hq hsplit hc1
  constructor
  · rw [hmain]
    dsimp only
    rw [os_path_join_kb hPslash]
  · have htake : ("/uniprotkb/".data ++ P).take 1 = ['/'] := by
      rw [show ("/uniprotkb/".data : PyStr) = '/' :: "uniprotkb/".data from by decide]
      rfl
    rw [geturl_beta htake]
    rw [show "https://beta.uniprot.org/uniprotkb/".data =
      "https://beta.uniprot.org".data ++ "/uniprotkb/".data from by decide, List.append_assoc]

/-- Witness for C1 (amended) at `seg = UniProt`, `P = P12345`. -/
theorem c1_kb_rewrite_witness :
    ("UniProt".data.map Char.toLower = "uniprot".data) ∧
    ("P12345".data : PyStr) ≠ [] ∧
    (is_url_ok envBad
      ("https://www.uniprot.org".data ++ '/' :: ("UniProt".data ++ '/' :: "P12345".data))).2 =
      [Effect.betaCheck
        ⟨"https".data, UNIPROT_BETA_URL, "/uniprotkb/".data ++ "P12345".data, [], []⟩] :=
  ⟨by decide, by decide,
   (c1_kb_rewrite envBad "UniProt".data "P12345".data (by decide) (by decide) (by decide)).1⟩

/-- C1 counterexample: with the multi-segment remainder `a/b` the first
path component test compares `/uniprot/a` (the head of
`os.path.split`), so no rewrite fires: the renderer receives
`https://beta.uniprot.org/uniprot/a/b`, not the claimed
`https://beta.uniprot.org/uniprotkb/a/b`. -/
theorem c1_counterexample :
    (is_url_ok envBad "https://www.uniprot.org/uniprot/a/b".data).2 =
      [Effect.betaCheck ⟨"https".data, "beta.uniprot.org".data, "/uniprot/a/b".data, [], []⟩] ∧
    geturl ⟨"https".data, "beta.uniprot.org".data, "/uniprot/a/b".data, [], []⟩ =
      "https://beta.uniprot.org/uniprot/a/b".data ∧
    "https://beta.uniprot.org/uniprot/a/b".data ≠
      "https://beta.uniprot.org/uniprotkb/a/b".data :=
  ⟨by decide, by decide, by decide⟩

/-- C2 (amended): for a legacy `/manual/T` path whose remainder `T` is a
single segment (possibly empty, containing no `/`), the dispatcher
rewrites the first segment to `/help/` and leaves `T` unchanged, handing
the renderer `https://beta.uniprot.org/help/T`.  (Under deeper nesting
such as `/manual/a/b` the rewrite does not fire — see the
counterexample.) -/
theorem c2_manual_rewrite (env : Env) (T : PyStr)
    (hT : ∀ c ∈ T, c ≠ '/' ∧ c ≠ '#' ∧ c ≠ '?') :
    (is_url_ok env ("https://www.uniprot.org".data ++ '/' :: ("manual".data ++ '/' :: T))).2 =
      [Effect.betaCheck ⟨"https".data, UNIPROT_BETA_URL, "/help/".data ++ T, [], []⟩] ∧
    geturl ⟨"https".data, UNIPROT_BETA_URL, "/help/".data ++ T, [], []⟩ =
      "https://beta.uniprot.org/help/".data ++ T := by
  have hTslash : '/' ∉ T := fun hm => ((hT _ hm).1 rfl)
  have hq : ∀ c ∈ "manual".data ++ '/' :: T, c ≠ '#' ∧ c ≠ '?' := by
    intro c hcm
    rcases List.mem_append.mp hcm with h | h
    · have h' : c = 'm' ∨ c = 'a' ∨ c = 'n' ∨ c = 'u' ∨ c = 'a' ∨ c = 'l' := by
        simpa using h
      rcases h' with rfl | rfl | rfl | rfl | rfl | rfl <;> exact ⟨by decide, by decide⟩
    · rcases List.mem_cons.mp h with h | h
      · subst h
        exact ⟨by decide, by decide⟩
      · exact ⟨(hT _ h).2.1, (hT _ h).2.2⟩
  have hsplit : os_path_split ('/' :: ("manual".data ++ '/' :: T)) = ("/manual".data, T) := by
    have hpath : '/' :: ("manual".data ++ '/' :: T) = ('/' :: "manual".data) ++ '/' :: T := by
      simp
    rw [hpath, os_path_split_append _ hTslash (by decide)]
    rw [show rstripSlashes ('/' :: "manual".data) = "/manual".data from by decide]
  have hmain := is_url_ok_uniprot_manual env ("manual".data ++ '/' :: T) "/manual".data T hq
    hsplit (by decide) rfl
  constructor
  · rw [hmain]
    dsimp only
    rw [os_path_join_help T hTslash]
  · have htake : ("/help/".data ++ T).take 1 = ['/'] := by
      rw [show ("/help/".data : PyStr) = '/' :: "help/".data from by decide]
      rfl
    rw [geturl_beta htake]
    rw [show "https://beta.uniprot.org/help/".data =
      "https://beta.uniprot.org".data ++ "/help/".data from by decide, List.append_assoc]

/-- Witness for C2 (amended) at `T = foo`. -/
theorem c2_manual_rewrite_witness :
    (is_url_ok envBad
      ("https://www.uniprot.org".data ++ '/' :: ("manual".data ++ '/' :: "foo".data))).2 =
      [Effect.betaCheck ⟨"https".data, UNIPROT_BETA_URL, "/help/".data ++ "foo".data, [], []⟩] :=
  (c2_manual_rewrite envBad "foo".data (by decide)).1

/-- C2 counterexample: with the nested path `/manual/a/b` the first
component test compares `/manual/a`, so no rewrite fires: every part of
the path stays `/manual/a/b` instead of the claimed `/help/a/b`. -/
theorem c2_counterexample :
    (is_url_ok envBad "https://www.uniprot.org/manual/a/b".data).2 =
      [Effect.betaCheck ⟨"https".data, "beta.uniprot.org".data, "/manual/a/b".data, [], []⟩] ∧
    geturl ⟨"https".data, "beta.uniprot.org".data, "/manual/a/b".data, [], []⟩ =
      "https://beta.uniprot.org/manual/a/b".data ∧
    "https://beta.uniprot.org/manual/a/b".data ≠ "https://beta.uniprot.org/help/a/b".data :=
  ⟨by decide, by decide, by decide⟩

/-- C10: the `/manual` rewrite is case-sensitive while the knowledge-base
rewrite is case-insensitive: for any legacy-host URL whose first path
component is a casing of `manual` other than all-lowercase (for example
`/Manual/foo`), no segment rewrite is applied and the path reaches the
new host unchanged. -/
theorem c10_manual_case_sensitive (env : Env) (c rest : PyStr)
    (hc : c.map Char.toLower = "manual".data)
    (hcne : c ≠ "manual".data)
    (hrest : rest = [] ∨ rest.take 1 = ['/'])
    (hrc : ∀ ch ∈ rest, ch ≠ '#' ∧ ch ≠ '?') :
    (is_url_ok env ("https://www.uniprot.org".data ++ '/' :: (c ++ rest))).2 =
      [Effect.betaCheck ⟨"https".data, UNIPROT_BETA_URL, '/' :: (c ++ rest), [], []⟩] := by
  have hslash : '/' ∉ c := char_not_mem_of_lower hc (by decide) (by decide)
  have hhash : '#' ∉ c := char_not_mem_of_lower hc (by decide) (by decide)
  have hquest : '?' ∉ c := char_not_mem_of_lower hc (by decide) (by decide)
  have hcne0 : c ≠ [] := by
    intro h
    rw [h] at hc
    exact absurd hc (by decide)
  have hq : ∀ ch ∈ c ++ rest, ch ≠ '#' ∧ ch ≠ '?' := by
    intro ch hm
    rcases List.mem_append.mp hm with h | h
    · exact ⟨fun he => hhash (he ▸ h), fun he => hquest (he ▸ h)⟩
    · exact hrc _ h
  have hanyc : ('/' :: c).any (· != '/') = true := by
    cases c with
    | nil => exact absurd rfl hcne0
    | cons s0 srest =>
      have hs0 : s0 ≠ '/' := fun he => hslash (by simp [he])
      exact List.any_eq_true.mpr ⟨s0, by simp, by simp [hs0]⟩
  rcases hrest with hrest | hrest
  · subst hrest
    have hsplit : os_path_split ('/' :: (c ++ [])) = (['/'], c) := by
      rw [List.append_nil]
      exact os_path_split_root hslash
    rw [is_url_ok_uniprot_noRewrite env (c ++ []) ['/'] c hq hsplit (by decide) (by decide)]
  · obtain ⟨r, rfl⟩ : ∃ r, rest = '/' :: r := by
      cases rest with
      | nil => simp at hrest
      | cons a r =>
        have ha : a = '/' := by simpa [List.take] using hrest
        exact ⟨r, by rw [ha]⟩
    rcases hsl : splitLastSlash r with ⟨hr, tr⟩
    have hspec := splitLastSlash_spec r
    rw [hsl] at hspec
    dsimp only at hspec
    obtain ⟨hspec1, hspec2, hspec3⟩ := hspec
    rcases hspec3 with hnil | hlast
    · subst hnil
      rw [List.nil_append] at hspec1
      subst hspec1
      have hsplit : os_path_split ('/' :: (c ++ '/' :: r)) = ('/' :: c, r) := by
        have hpath : '/' :: (c ++ '/' :: r) = ('/' :: c) ++ '/' :: r := by simp
        rw [hpath, os_path_split_append _ hspec2 hanyc,
          rstripSlashes_slash_cons hslash hcne0]
      rw [is_url_ok_uniprot_noRewrite env (c ++ '/' :: r) ('/' :: c) r hq hsplit
        (by simpa using manual_head_ne_kb hc [])
        (by simpa using manual_head_ne_manual hc hcne [])]
    · have hdrop : hr.dropLast ++ ['/'] = hr := List.dropLast_append_getLast? '/' hlast
      have hpath : '/' :: (c ++ '/' :: r) = ('/' :: c ++ '/' :: hr.dropLast) ++ '/' :: tr := by
        rw [hspec1, ← hdrop]
        simp
      have hany2 : ('/' :: c ++ '/' :: hr.dropLast).any (· != '/') = true := by
        rw [show ('/' :: c ++ '/' :: hr.dropLast : PyStr) =
          ('/' :: c) ++ ('/' :: hr.dropLast) from rfl, List.any_append, hanyc, Bool.true_or]
      have hsplit0 : os_path_split ('/' :: (c ++ '/' :: r)) =
          (rstripSlashes ('/' :: c ++ '/' :: hr.dropLast), tr) := by
        rw [hpath, os_path_split_append _ hspec2 hany2]
      cases hW : rstripSlashes ('/' :: hr.dropLast) with
      | nil =>
        have hrs : rstripSlashes ('/' :: c ++ '/' :: hr.dropLast) = '/' :: c := by
          rw [show ('/' :: c ++ '/' :: hr.dropLast : PyStr) =
            ('/' :: c) ++ ('/' :: hr.dropLast) from rfl,
            rstripSlashes_append_of_nil _ hW, rstripSlashes_slash_cons hslash hcne0]
        rw [hrs] at hsplit0
        rw [is_url_ok_uniprot_noRewrite env (c ++ '/' :: r) ('/' :: c) tr hq hsplit0
          (by simpa using manual_head_ne_kb hc [])
          (by simpa using manual_head_ne_manual hc hcne [])]
      | cons w ws =>
        have hWne : rstripSlashes ('/' :: hr.dropLast) ≠ [] := by
          rw [hW]
          simp
        have hrs : rstripSlashes ('/' :: c ++ '/' :: hr.dropLast) = '/' :: c ++ (w :: ws) := by
          rw [show ('/' :: c ++ '/' :: hr.dropLast : PyStr) =
            ('/' :: c) ++ ('/' :: hr.dropLast) from rfl,
            rstripSlashes_append_of_ne _ hWne, hW]
        rw [hrs] at hsplit0
        rw [is_url_ok_uniprot_noRewrite env (c ++ '/' :: r) ('/' :: c ++ (w :: ws)) tr hq
          hsplit0 (manual_head_ne_kb hc (w :: ws)) (manual_head_ne_manual hc hcne (w :: ws))]

/-- Witness for C10 at the URL `https://www.uniprot.org/Manual/foo`. -/
theorem c10_manual_case_sensitive_witness :
    ("Manual".data.map Char.toLower = "manual".data) ∧
    ("Manual".data : PyStr) ≠ "manual".data ∧
    (is_url_ok envBad
      ("https://www.uniprot.org".data ++ '/' :: ("Manual".data ++ "/foo".data))).2 =
      [Effect.betaCheck
        ⟨"https".data, UNIPROT_BETA_URL, '/' :: ("Manual".data ++ "/foo".data), [], []⟩] :=
  ⟨by decide, by decide,
   c10_manual_case_sensitive envBad "Manual".data "/foo".data (by decide) (by decide)
     (Or.inr (by decide)) (by decide)⟩

/-! ## Counting lemmas for the deduplicated outputs -/

theorem count_map_pair (b x : PyStr) (l : List PyStr) :
    (l.map (fun d => (b, d))).count (b, x) = l.count x := by
  induction l with
  | nil => rfl
  | cons a as ih =>
    by_cases h : a = x
    · subst h
      rw [List.map_cons, List.count_cons_self, List.count_cons_self, ih]
    · have hne : x ≠ a := fun he => h he.symm
      rw [List.map_cons, List.count_cons_of_ne (by simp [hne]), List.count_cons_of_ne hne, ih]

theorem count_nodup_one {x : PyStr} {l : List PyStr} (hn : l.Nodup) (hm : x ∈ l) :
    l.count x = 1 := by
  induction l with
  | nil => simp at hm
  | cons a as ih =>
    rw [List.nodup_cons] at hn
    rcases List.mem_cons.mp hm with rfl | hm'
    · rw [List.count_cons_self, List.count_eq_zero.mpr hn.1]
    · rw [List.count_cons_of_ne (fun he => hn.1 (by rw [← he]; exact hm')), ih hn.2 hm']

/-! ## Membership in the raw dead-link lists -/

theorem checkLinks_mem (env : Env) (soup : List Anchor) (url : PyStr) (ok : Bool)
    (af : Option Bool) (dl da : List PyStr)
    (hres : checkLinks env soup = .ok (dl, da))
    (hurl : (is_url_ok env url).1 = .ok (ok, af))
    (hocc : ∃ el ∈ soup, el.href = some url) :
    (ok = false → url ∈ dl) ∧ (af = some false → url ∈ da) := by
  induction soup generalizing dl da with
  | nil =>
    rcases hocc with ⟨el, hel, _⟩
    simp at hel
  | cons el0 rest ih =>
    rcases hocc with ⟨el, hel, helhref⟩
    unfold checkLinks at hres
    cases hh : el0.href with
    | none =>
      rw [hh] at hres
      dsimp only at hres
      cases hrest : checkLinks env rest with
      | error e =>
        rw [hrest] at hres
        exact absurd hres (by simp)
      | ok pr =>
        rcases pr with ⟨dl', da'⟩
        rw [hrest] at hres
        dsimp only at hres
        injection hres with hres
        obtain ⟨rfl, rfl⟩ := Prod.mk.inj hres
        have hel' : el ∈ rest := by
          rcases List.mem_cons.mp hel with h | h
          · subst h
            rw [hh] at helhref
            exact absurd helhref (by simp)
          · exact h
        have hres' := ih dl' da' hrest ⟨el, hel', helhref⟩
        exact ⟨fun hok => List.mem_cons_of_mem _ (hres'.1 hok), fun haf => hres'.2 haf⟩
    | some u =>
      rw [hh] at hres
      dsimp only at hres
      cases hu : (is_url_ok env u).1 with
      | error e =>
        rw [hu] at hres
        exact absurd hres (by simp)
      | ok r =>
        rcases r with ⟨ok', af'⟩
        rw [hu] at hres
        dsimp only at hres
        cases hrest : checkLinks env rest with
        | error e =>
          rw [hrest] at hres
          exact absurd hres (by simp)
        | ok pr =>
          rcases pr with ⟨dl', da'⟩
          rw [hrest] at hres
          dsimp only at hres
          injection hres with hres
          obtain ⟨rfl, rfl⟩ := Prod.mk.inj hres
          rcases List.mem_cons.mp hel with h | h
          · subst h
            rw [hh] at helhref
            injection helhref with hu2
            subst hu2
            have heq : (Except.ok (ok, af) :
                Except CheckErr (Bool × Option Bool)) = .ok (ok', af') := by
              rw [← hurl, ← hu]
            injection heq with heq
            obtain ⟨rfl, rfl⟩ := Prod.mk.inj heq
            constructor
            · intro hok
              rw [if_pos hok]
              exact List.mem_cons_self _ _
            · intro haf
              rw [haf]
              dsimp only
              rw [if_pos rfl]
              exact List.mem_cons_self _ _
          · have hres' := ih dl' da' hrest ⟨el, h, helhref⟩
            constructor
            · intro hok
              have hmem := hres'.1 hok
              by_cases hok' : ok' = false
              · rw [if_pos hok']
                exact List.mem_cons_of_mem _ hmem
              · rw [if_neg hok']
                exact hmem
            · intro haf
              have hmem := hres'.2 haf
              cases af' with
              | none => exact hmem
              | some b =>
                dsimp only
                by_cases hb : b = false
                · rw [if_pos hb]
                  exact List.mem_cons_of_mem _ hmem
                · rw [if_neg hb]
                  exact hmem

/-- C7: within one document, a dead target referenced several times is
reported once: if an href occurs at least twice among the document's
anchors and checks dead (or has a dead anchor), the emitted dead-links
(dead-anchors) table holds exactly one record `(document URL, target)`
for it, because the per-document collections pass through `set(...)`. -/
theorem c7_dedup (env : Env) (hf : HelpFile) (soup : List Anchor) (url : PyStr)
    (ok : Bool) (af : Option Bool) (lfR afR : List (PyStr × PyStr))
    (hp : hf.parsed = .ok soup)
    (hrun : processFile env hf = .ok (lfR, afR))
    (hocc : 2 ≤ (soup.filter (fun el => el.href == some url)).length)
    (hurl : (is_url_ok env url).1 = .ok (ok, af)) :
    (ok = false → lfR.count (get_beta_help_url hf.path, url) = 1) ∧
    (af = some false → afR.count (get_beta_help_url hf.path, url) = 1) := by
  unfold processFile at hrun
  rw [hp] at hrun
  dsimp only at hrun
  cases hcheck : check_and_standardize_all_links env soup with
  | error e =>
    rw [hcheck] at hrun
    exact absurd hrun (by simp)
  | ok pr =>
    rcases pr with ⟨dl, da⟩
    rw [hcheck] at hrun
    dsimp only at hrun
    injection hrun with hrun
    obtain ⟨rfl, rfl⟩ := Prod.mk.inj hrun
    unfold check_and_standardize_all_links at hcheck
    cases hlinks : checkLinks env soup with
    | error e =>
      rw [hlinks] at hcheck
      exact absurd hcheck (by simp)
    | ok pr2 =>
      rcases pr2 with ⟨dl0, da0⟩
      rw [hlinks] at hcheck
      dsimp only at hcheck
      injection hcheck with hcheck
      obtain ⟨rfl, rfl⟩ := Prod.mk.inj hcheck
      have hex : ∃ el ∈ soup, el.href = some url := by
        have hlen : 0 < (soup.filter (fun el => el.href == some url)).length := by omega
        obtain ⟨el, helf⟩ := List.exists_mem_of_length_pos hlen
        have hm := List.mem_filter.mp helf
        exact ⟨el, hm.1, by simpa using hm.2⟩
      have hmem := checkLinks_mem env soup url ok af dl0 da0 hlinks hurl hex
      constructor
      · intro hok
        have hmemd : url ∈ dl0.dedup := List.mem_dedup.mpr (hmem.1 hok)
        rw [count_map_pair]
        exact count_nodup_one (List.nodup_dedup dl0) hmemd
      · intro haf
        have hmemd : url ∈ da0.dedup := List.mem_dedup.mpr (hmem.2 haf)
        rw [count_map_pair]
        exact count_nodup_one (List.nodup_dedup da0) hmemd

/-- A help file whose parse fails, for the C8 witness. -/
def hfBad : HelpFile := ⟨"./uniprot-manual/help/broken.md".data, .error "boom".data⟩

/-- A parsed help file with one dead link repeated twice. -/
def hfGood : HelpFile :=
  ⟨"./uniprot-manual/help/glossary.md".data,
   .ok [⟨some "https://example.org/x".data, []⟩, ⟨some "https://example.org/x".data, []⟩]⟩

/-- Witness for C7 at a document referencing the same dead target twice. -/
theorem c7_dedup_witness :
    hfGood.parsed = .ok [⟨some "https://example.org/x".data, []⟩,
      ⟨some "https://example.org/x".data, []⟩] ∧
    2 ≤ ([(⟨some "https://example.org/x".data, []⟩ : Anchor),
      ⟨some "https://example.org/x".data, []⟩].filter
        (fun el => el.href == some "https://example.org/x".data)).length ∧
    processFile envBad hfGood =
      .ok ([(get_beta_help_url hfGood.path, "https://example.org/x".data)], []) ∧
    [(get_beta_help_url hfGood.path, "https://example.org/x".data)].count
      (get_beta_help_url hfGood.path, "https://example.org/x".data) = 1 := by
  refine ⟨rfl, by decide, by decide, ?_⟩
  exact (c7_dedup envBad hfGood
    [⟨some "https://example.org/x".data, []⟩, ⟨some "https://example.org/x".data, []⟩]
    "https://example.org/x".data false none
    [(get_beta_help_url hfGood.path, "https://example.org/x".data)] []
    rfl (by decide) (by decide) (by decide)).1 rfl

/-- C8: a failure while processing one document is caught and logged at
document granularity, and every later document is still processed: the
run on `bad :: rest` produces exactly the tables of the run on `rest`,
plus one logged error for the bad document. -/
theorem c8_document_isolation (env : Env) (bad : HelpFile) (rest : List HelpFile) (e : PyStr)
    (h : processFile env bad = .error e) :
    runDocs env (bad :: rest) =
      ((runDocs env rest).1, (runDocs env rest).2.1, e :: (runDocs env rest).2.2) := by
  rcases hr : runDocs env rest with ⟨lf, af, log⟩
  unfold runDocs
  rw [h, hr]

/-- Witness for C8: the failing document is logged and the following
document's dead link is still reported. -/
theorem c8_document_isolation_witness :
    processFile envBad hfBad = .error "boom".data ∧
    runDocs envBad [hfBad, hfGood] =
      ((runDocs envBad [hfGood]).1, (runDocs envBad [hfGood]).2.1,
        "boom".data :: (runDocs envBad [hfGood]).2.2) ∧
    (runDocs envBad [hfBad, hfGood]).1 =
      [(get_beta_help_url hfGood.path, "https://example.org/x".data)] :=
  ⟨by decide, c8_document_isolation envBad hfBad [hfGood] "boom".data (by decide), by decide⟩

end LinkChecker
